import Mathlib

/-!
Verification of the crosspost repository against its specification.

The development shallowly embeds the Python sources:
  * `src/src/crosspost/config.py`  — credential resolution with a run-scoped
    cache, secure-store lookup and interactive-prompt fallback;
  * `src/src/crosspost/poster.py`  — the per-platform posting loops and the
    URL facet computation performed before a Bluesky post;
  * `src/src/crosspost/cli.py`     — the entry point and its exit codes;
  * `src/crosspost.py`             — the legacy script resolving credentials
    from environment variables.

Post text is modelled as `List Char` (Python strings are sequences of code
points), secrets as `String`, and the observable behaviour of a run (store
reads and writes, prompts, warnings, adapter calls) as a list of events
threaded through an explicit run state.
-/

namespace Crosspost

/-! ## Facet extraction (poster.py, post_to_bluesky lines 52-65)

The source scans the text with the regex `https?://\S+` (re.findall), and for
each matched URL takes `start = text.index(url)` — the code-point index of the
first occurrence of the URL string in the text — and `end = start + len(url)`,
passing both as `byteStart` / `byteEnd` of the facet. -/

/-- Whitespace class of Python's `\s` over `str` (what `\S` complements):
ASCII space, tab, newline, carriage return, vertical tab, form feed, the
file/group/record/unit separators, next line, and the Unicode space
characters. -/
def isSpaceChar (c : Char) : Bool :=
  c == ' ' || c == '\t' || c == '\n' || c == '\r' || c == '\x0b' || c == '\x0c' ||
  c == '\x1c' || c == '\x1d' || c == '\x1e' || c == '\x1f' ||
  c == '\x85' || c == '\xa0' || c == ' ' ||
  (0x2000 ≤ c.toNat && c.toNat ≤ 0x200a) ||
  c == ' ' || c == ' ' || c == ' ' || c == ' ' || c == '　'

/-- Maximal run of non-whitespace characters at the front of the list:
the greedy `\S+` part of the URL regex (`\S*` when the result is empty). -/
def takeNonSpace : List Char → List Char
  | [] => []
  | c :: rest => if isSpaceChar c then [] else c :: takeNonSpace rest

/-- Characters of the literal scheme part `http://` of the URL regex. -/
def httpScheme : List Char := ['h', 't', 't', 'p', ':', '/', '/']

/-- Characters of the literal scheme part `https://` of the URL regex. -/
def httpsScheme : List Char := ['h', 't', 't', 'p', 's', ':', '/', '/']

/-- Length of the scheme matched by `https?://` at the front of the list, if
any.  The two alternatives are mutually exclusive (after `http` the next
character is either `s` or `:`), so trying the longer one first is exactly the
regex's backtracking behaviour. -/
def schemeLen (cs : List Char) : Option Nat :=
  if cs.take 8 = httpsScheme then some 8
  else if cs.take 7 = httpScheme then some 7
  else none

/-- The URL matched by the regex `https?://\S+` anchored at the front of the
list, if any: the scheme followed by at least one non-whitespace character,
extending greedily through all following non-whitespace. -/
def matchUrlAt (cs : List Char) : Option (List Char) :=
  match schemeLen cs with
  | none => none
  | some n =>
    let body := takeNonSpace (cs.drop n)
    if body = [] then none else some (cs.take n ++ body)

/-- Scanner behind `findUrls`: while `skip` is positive the characters of a
previously emitted match are passed over; at `skip = 0` a match anchored at
the current position is emitted and scanning continues after its end (a match
at `c :: rest` covers `c` plus the next `url.length - 1` characters),
otherwise scanning advances one character.  The structural recursion on the
text keeps the function computable by the kernel. -/
def findUrlsAux : Nat → List Char → List (List Char)
  | _, [] => []
  | skip + 1, _ :: rest => findUrlsAux skip rest
  | 0, c :: rest =>
    match matchUrlAt (c :: rest) with
    | some url => url :: findUrlsAux (url.length - 1) rest
    | none => findUrlsAux 0 rest

/-- All matches of `re.findall(r'(https?://\S+)', text)` in order: scan left
to right; at a match, continue scanning after its end, otherwise advance one
character. -/
def findUrls (cs : List Char) : List (List Char) :=
  findUrlsAux 0 cs

/-- Python's `text.index(needle)`: index of the first occurrence of `needle`
as a contiguous sublist.  (The source only ever calls it with a `needle` that
does occur in `text`; when it does not, Python would raise `ValueError`, and
this total model returns `text.length` instead.) -/
def indexOf : List Char → List Char → Nat
  | [], _ => 0
  | c :: rest, needle =>
    if (c :: rest).take needle.length = needle then 0 else indexOf rest needle + 1

/-- Link annotation over a span of the post text, as sent on the Bluesky
wire: `models.AppBskyRichtextFacet.Main` with a `ByteSlice` index and a
`Link` feature. -/
structure Facet where
  byteStart : Nat
  byteEnd : Nat
  uri : List Char
deriving DecidableEq, Repr

/-- Facet list computed in `post_to_bluesky` (poster.py lines 53-65 and
crosspost.py lines 100-112): one facet per regex match, with
`start = text.index(url)` and `end = start + len(url)` — code-point indices
of the first occurrence, passed as `byteStart`/`byteEnd`. -/
def extractFacets (text : List Char) : List Facet :=
  (findUrls text).map fun url =>
    let start := indexOf text url
    { byteStart := start, byteEnd := start + url.length, uri := url }

/-! UTF-8 encoding, needed to state the byte-offset properties. -/

/-- UTF-8 encoding of one code point as its list of byte values. -/
def charUtf8 (c : Char) : List Nat :=
  let n := c.toNat
  if n < 0x80 then [n]
  else if n < 0x800 then [0xc0 + n / 0x40, 0x80 + n % 0x40]
  else if n < 0x10000 then
    [0xe0 + n / 0x1000, 0x80 + n / 0x40 % 0x40, 0x80 + n % 0x40]
  else
    [0xf0 + n / 0x40000, 0x80 + n / 0x1000 % 0x40, 0x80 + n / 0x40 % 0x40,
      0x80 + n % 0x40]

/-- UTF-8 encoding of a text as a list of byte values. -/
def utf8Encode : List Char → List Nat
  | [] => []
  | c :: cs => charUtf8 c ++ utf8Encode cs

/-- Bytes `a` (inclusive) to `b` (exclusive) of the UTF-8 encoding of a text:
Python's `text.encode("utf-8")[a:b]`. -/
def utf8ByteSlice (text : List Char) (a b : Nat) : List Nat :=
  ((utf8Encode text).drop a).take (b - a)

/-- The pattern `pat` occurs in `text` starting at code-point index `n`. -/
def occursAt (text pat : List Char) (n : Nat) : Prop :=
  (text.drop n).take pat.length = pat

instance (text pat : List Char) (n : Nat) : Decidable (occursAt text pat n) :=
  inferInstanceAs (Decidable (_ = _))

/-! ## Observable events of a run

Each constructor records one externally visible action of the program: a
`keyring.get_password` call, a `keyring.set_password` call, a `getpass`
prompt, a missing-credential warning, an invalid-Twitter-credentials report,
an adapter post call (`status_post` / `send_post`) with its arguments, and
the per-account success or failure report. -/

inductive Event where
  | storeGet (service key : String)
  | storeSet (service key value : String)
  | prompt (platform account : String)
  | warnMissing (platform account : String)
  | invalidCreds (account : String)
  | sentPost (platform account : String) (text : List Char) (facets : List Facet)
  | posted (platform account : String)
  | postFailed (platform account : String)
deriving DecidableEq, Repr

/-- Twitter API credential bundle parsed from the JSON blob held in the
secure store; each field comes from `credentials.get(...)` and may be
absent. -/
structure TwitterCreds where
  apiKey : Option String
  apiSecret : Option String
  accessToken : Option String
  accessTokenSecret : Option String
deriving DecidableEq, Repr

/-- The external world of one run.  `storeGet s k = none` models
`keyring.get_password` raising an exception; `some none` a clean miss;
`some (some v)` a hit.  `promptAnswer n` is what the `n`-th `getpass` call of
the run returns, `none` modelling a `KeyboardInterrupt`.  `setFails s k`
says whether `keyring.set_password` raises for that entry.  The `...Fails`
fields say whether the platform client adapter raises for the named
account (authentication, network, malformed request, rate limit — the model
does not distinguish the cause, only that an exception reaches the
account-level handler). -/
structure Env where
  storeGet : String → String → Option (Option String)
  promptAnswer : Nat → Option String
  setFails : String → String → Bool
  parseTwitterJson : String → Option TwitterCreds
  mastodonFails : String → Bool
  blueskyLoginFails : String → Bool
  blueskySendFails : String → Bool
  twitterFails : String → Bool

/-- Mutable state threaded through a run: the run-scoped credential cache
(`_credential_cache`, newest entry first), the values written to the secure
store during this run (consulted by later reads, as the real keyring would),
the number of `getpass` calls made so far, and the event log. -/
structure RunState where
  cache : List ((String × String) × String)
  written : List ((String × String) × String)
  promptCount : Nat
  events : List Event
deriving DecidableEq

/-- State at process start: empty cache, nothing written, no prompts, no
events. -/
def initialState : RunState := ⟨[], [], 0, []⟩

/-- First value stored under key `k`, newest entry first: Python dict lookup
against a list where updates are prepended. -/
def lookupAssoc (l : List ((String × String) × String)) (k : String × String) :
    Option String :=
  match l with
  | [] => none
  | (k', v) :: rest => if k' = k then some v else lookupAssoc rest k

/-- Append one event to the log. -/
def logEvent (st : RunState) (e : Event) : RunState :=
  { st with events := st.events ++ [e] }

/-- Python truthiness of an optional string: `None` and `""` are falsy. -/
def truthy : Option String → Bool
  | none => false
  | some v => !(v == "")

/-! ## Credential resolution (config.py lines 117-238) -/

/-- Models `_get_from_keychain` (config.py lines 117-131): one
`keyring.get_password` call; an exception from the backend is caught,
reported, and turned into `None`.  A value written to the store earlier in
the same run is returned by a later read, as with the real keyring. -/
def getFromKeychain (env : Env) (service key : String) (st : RunState) :
    Option String × RunState :=
  let st := logEvent st (.storeGet service key)
  match lookupAssoc st.written (service, key) with
  | some v => (some v, st)
  | none =>
    match env.storeGet service key with
    | none => (none, st)
    | some r => (r, st)

/-- Models `_prompt_for_credential` (config.py lines 134-147): one `getpass`
call; `KeyboardInterrupt` is caught and turned into `None`. -/
def promptForCredential (env : Env) (platform account : String) (st : RunState) :
    Option String × RunState :=
  let ans := env.promptAnswer st.promptCount
  (ans, { logEvent st (.prompt platform account) with
            promptCount := st.promptCount + 1 })

/-- Models the tail of `_resolve_credential` (config.py lines 218-238), after
a cache miss and a keychain miss: return `None` without prompting when
`skip_prompts`, otherwise prompt, return `None` on cancellation or empty
input, and on non-empty input try `keyring.set_password`; on success cache
the value and return it, on an exception report and return `None`. -/
def promptPhase (env : Env) (service accountName platformName keychainKey : String)
    (skipPrompts : Bool) (st : RunState) : Option String × RunState :=
  if skipPrompts then (none, st)
  else
    let pr := promptForCredential env platformName accountName st
    let entered := pr.1
    let st := pr.2
    match entered with
    | none => (none, st)
    | some v =>
      if v = "" then (none, st)
      else
        let st := logEvent st (.storeSet service keychainKey v)
        if env.setFails service keychainKey then (none, st)
        else
          (some v, { st with
              written := ((service, keychainKey), v) :: st.written,
              cache := ((service, keychainKey), v) :: st.cache })

/-- Models `_resolve_credential` (config.py lines 193-238): return a cached
value for `(service, keychain_key)` if present; otherwise read the keychain,
and on a truthy value cache and return it ( `if credential:` — the empty
string falls through exactly like a miss); otherwise enter the prompt
phase. -/
def resolveCredential (env : Env) (service accountName platformName keychainKey : String)
    (skipPrompts : Bool) (st : RunState) : Option String × RunState :=
  match lookupAssoc st.cache (service, keychainKey) with
  | some v => (some v, st)
  | none =>
    let gr := getFromKeychain env service keychainKey st
    let credential := gr.1
    let st := gr.2
    match credential with
    | some v =>
      if v = "" then promptPhase env service accountName platformName keychainKey skipPrompts st
      else (some v, { st with cache := ((service, keychainKey), v) :: st.cache })
    | none => promptPhase env service accountName platformName keychainKey skipPrompts st

/-! ## Configuration (config.py lines 241-310) -/

/-- One account entry of the configuration file: a display name, a
platform-specific address (Mastodon `instance` / Bluesky or Twitter
`handle`), and an optional `keychain_key`. -/
structure Account where
  name : String
  address : String
  keychainKey : Option String
deriving DecidableEq, Repr

/-- One platform section of the configuration file. -/
structure PlatformConfig where
  enabled : Bool
  accounts : List Account
deriving DecidableEq, Repr

/-- Parsed configuration file: the optional `keychain_service` override and
the three platform sections, each possibly absent. -/
structure Config where
  keychainService : Option String
  mastodon : Option PlatformConfig
  bluesky : Option PlatformConfig
  twitter : Option PlatformConfig
deriving DecidableEq, Repr

/-- Models `config.get("keychain_service", "crosspost")`. -/
def serviceName (cfg : Config) : String := cfg.keychainService.getD "crosspost"

/-- Account together with the credential `load_config` stored into it
(`account["token"]` for Mastodon, `account["password"]` for Bluesky);
`none` when no `keychain_key` was configured or resolution failed. -/
structure LoadedAccount where
  account : Account
  credential : Option String
deriving DecidableEq, Repr

/-- Twitter account together with the parsed credential bundle, if any. -/
structure LoadedTwitterAccount where
  account : Account
  credentials : Option TwitterCreds
deriving DecidableEq, Repr

/-- Configuration after `load_config`: the service name and, per platform
section present in the file, its `enabled` flag and its accounts with their
resolved credentials. -/
structure LoadedConfig where
  service : String
  mastodon : Option (Bool × List LoadedAccount)
  bluesky : Option (Bool × List LoadedAccount)
  twitter : Option (Bool × List LoadedTwitterAccount)
deriving DecidableEq, Repr

/-- Models the Mastodon/Bluesky account loop of `load_config` (config.py
lines 273-291): for each account with a `keychain_key`, resolve it; note the
loop never consults the platform's `enabled` flag. -/
def resolvePlatformAccounts (env : Env) (service platformName : String)
    (skipPrompts : Bool) : List Account → RunState → List LoadedAccount × RunState
  | [], st => ([], st)
  | a :: rest, st =>
    let cr :=
      match a.keychainKey with
      | some k => resolveCredential env service a.name platformName k skipPrompts st
      | none => (none, st)
    let or := resolvePlatformAccounts env service platformName skipPrompts rest cr.2
    (⟨a, cr.1⟩ :: or.1, or.2)

/-- Models the Twitter account loop of `load_config` (config.py lines
292-308): skipped entirely under `skip_prompts`; otherwise one direct
`_get_from_keychain` read (no cache, no prompt), and a truthy blob is parsed
as JSON, a parse failure being reported per account. -/
def loadTwitterAccounts (env : Env) (service : String) (skipPrompts : Bool) :
    List Account → RunState → List LoadedTwitterAccount × RunState
  | [], st => ([], st)
  | a :: rest, st =>
    let cr :=
      match a.keychainKey with
      | none => ((none : Option TwitterCreds), st)
      | some k =>
        if skipPrompts then (none, st)
        else
          let gr := getFromKeychain env service k st
          match gr.1 with
          | none => (none, gr.2)
          | some s =>
            if s = "" then (none, gr.2)
            else
              match env.parseTwitterJson s with
              | none => (none, logEvent gr.2 (.invalidCreds a.name))
              | some c => (some c, gr.2)
    let or := loadTwitterAccounts env service skipPrompts rest cr.2
    (⟨a, cr.1⟩ :: or.1, or.2)

/-- Models the credential-resolution part of `load_config` (config.py lines
264-310), after the file has been found and parsed into `cfg`: platforms are
processed in the fixed order mastodon, bluesky, twitter; an absent section is
skipped; a present section has all its accounts resolved regardless of its
`enabled` flag. -/
def loadConfigResolve (env : Env) (cfg : Config) (skipPrompts : Bool)
    (st : RunState) : LoadedConfig × RunState :=
  let service := serviceName cfg
  let mr :=
    match cfg.mastodon with
    | none => (none, st)
    | some pc =>
      let ar := resolvePlatformAccounts env service "Mastodon" skipPrompts pc.accounts st
      (some (pc.enabled, ar.1), ar.2)
  let br :=
    match cfg.bluesky with
    | none => (none, mr.2)
    | some pc =>
      let ar := resolvePlatformAccounts env service "Bluesky" skipPrompts pc.accounts mr.2
      (some (pc.enabled, ar.1), ar.2)
  let tr :=
    match cfg.twitter with
    | none => (none, br.2)
    | some pc =>
      let ar := loadTwitterAccounts env service skipPrompts pc.accounts br.2
      (some (pc.enabled, ar.1), ar.2)
  (⟨service, mr.1, br.1, tr.1⟩, tr.2)

/-! ## Posting (poster.py) -/

/-- Models the account loop of `post_to_mastodon` (poster.py lines 18-29):
a falsy token warns and skips; otherwise `status_post` is invoked inside
`try`, and any adapter exception is caught and reported as a per-account
failure. -/
def postMastodonAccounts (env : Env) (text : List Char) :
    List LoadedAccount → RunState → RunState
  | [], st => st
  | la :: rest, st =>
    let st :=
      if truthy la.credential then
        let st := logEvent st (.sentPost "Mastodon" la.account.name text [])
        if env.mastodonFails la.account.name then
          logEvent st (.postFailed "Mastodon" la.account.name)
        else logEvent st (.posted "Mastodon" la.account.name)
      else logEvent st (.warnMissing "Mastodon" la.account.name)
    postMastodonAccounts env text rest st

/-- Models `post_to_mastodon` (poster.py lines 8-29): return immediately
unless the section is present and enabled. -/
def postToMastodon (env : Env) (text : List Char) (lc : LoadedConfig)
    (st : RunState) : RunState :=
  match lc.mastodon with
  | none => st
  | some (enabled, accs) =>
    if enabled then postMastodonAccounts env text accs st else st

/-- Models the account loop of `post_to_bluesky` (poster.py lines 42-71):
a falsy password warns and skips; otherwise `login` may raise (failure), and
on success `send_post` is invoked with the text and the facets of
`extractFacets`, any exception again being caught per account. -/
def postBlueskyAccounts (env : Env) (text : List Char) :
    List LoadedAccount → RunState → RunState
  | [], st => st
  | la :: rest, st =>
    let st :=
      if truthy la.credential then
        if env.blueskyLoginFails la.account.name then
          logEvent st (.postFailed "Bluesky" la.account.name)
        else
          let st := logEvent st (.sentPost "Bluesky" la.account.name text (extractFacets text))
          if env.blueskySendFails la.account.name then
            logEvent st (.postFailed "Bluesky" la.account.name)
          else logEvent st (.posted "Bluesky" la.account.name)
      else logEvent st (.warnMissing "Bluesky" la.account.name)
    postBlueskyAccounts env text rest st

/-- Models `post_to_bluesky` (poster.py lines 32-71): return immediately
unless the section is present and enabled. -/
def postToBluesky (env : Env) (text : List Char) (lc : LoadedConfig)
    (st : RunState) : RunState :=
  match lc.bluesky with
  | none => st
  | some (enabled, accs) =>
    if enabled then postBlueskyAccounts env text accs st else st

/-- All four Twitter credential fields present and non-empty. -/
def twitterReady : Option TwitterCreds → Bool
  | none => false
  | some c =>
    truthy c.apiKey && truthy c.apiSecret && truthy c.accessToken &&
      truthy c.accessTokenSecret

/-- Modelled from the spec: `post_to_twitter` is imported by the CLI
(cli.py line 6) but its definition is missing from the provided sources.
Following §4.3 and §9 of the specification, it mirrors the other posters:
skip unless the platform section is present and enabled, warn and skip an
account whose credential bundle is missing or incomplete, invoke the
platform client once per remaining account, and catch any adapter error at
the account boundary as a per-account failure. -/
def postTwitterAccounts (env : Env) (text : List Char) :
    List LoadedTwitterAccount → RunState → RunState
  | [], st => st
  | la :: rest, st =>
    let st :=
      if twitterReady la.credentials then
        let st := logEvent st (.sentPost "Twitter" la.account.name text [])
        if env.twitterFails la.account.name then
          logEvent st (.postFailed "Twitter" la.account.name)
        else logEvent st (.posted "Twitter" la.account.name)
      else logEvent st (.warnMissing "Twitter" la.account.name)
    postTwitterAccounts env text rest st

/-- Modelled from the spec: top level of the missing `post_to_twitter`,
guarded on the section being present and enabled like the other posters. -/
def postToTwitter (env : Env) (text : List Char) (lc : LoadedConfig)
    (st : RunState) : RunState :=
  match lc.twitter with
  | none => st
  | some (enabled, accs) =>
    if enabled then postTwitterAccounts env text accs st else st

/-! ## Entry point and exit codes (cli.py, config.py lines 13-18, 83-114,
255-262) -/

/-- Command-line arguments after `argparse`: the optional positional text
and the `--setup` flag. -/
structure Args where
  text : Option String
  setup : Bool
deriving DecidableEq, Repr

/-- Process-level environment decided before and during startup: whether the
`keyring` import succeeds (config.py lines 13-18), whether `config.toml`
exists in the current directory or the XDG location (config.py lines 94-102),
whether writing the example config succeeds (lines 104-114), and the result
of parsing the found file (`none` = parse exception, lines 257-262). -/
structure SysEnv where
  keyringAvailable : Bool
  cwdConfig : Bool
  xdgConfig : Bool
  createOk : Bool
  parsed : Option Config
deriving DecidableEq

/-- Models one whole invocation (cli.py `main` plus the module-level import
guard), returning the process exit code and the final run state:
`keyring` unavailable exits 1; no config file anywhere writes the example
and exits 0 (1 when the write fails); a parse failure exits 1; setup mode
exits 0 after `load_config` with prompts skipped (a `KeyboardInterrupt`
during the setup loop is caught and also exits 0 — the setup loop's own
store traffic is not needed by any claim and is not modelled); a missing
text argument outside setup prints usage and exits 1; otherwise the three
posters run, every per-account error being caught, and the process falls off
`main` with exit code 0. -/
def mainRun (senv : SysEnv) (env : Env) (args : Args) : Nat × RunState :=
  if !senv.keyringAvailable then (1, initialState)
  else if senv.cwdConfig || senv.xdgConfig then
    match senv.parsed with
    | none => (1, initialState)
    | some cfg =>
      let lr := loadConfigResolve env cfg args.setup initialState
      if args.setup then (0, lr.2)
      else
        match args.text with
        | none => (1, lr.2)
        | some text =>
          let st := postToMastodon env text.toList lr.1 lr.2
          let st := postToBluesky env text.toList lr.1 st
          let st := postToTwitter env text.toList lr.1 st
          (0, st)
  else if senv.createOk then (0, initialState) else (1, initialState)

/-! ## Legacy script (src/crosspost.py)

The legacy script resolves credentials from environment variables named in
the configuration (`token_env` / `password_env`) and has no cache, no secure
store and no interactive prompt anywhere. -/

namespace Legacy

/-- Account entry of the legacy `config.json`: name, address and the name of
the environment variable holding the credential. -/
structure LAccount where
  name : String
  address : String
  credEnv : String
deriving DecidableEq, Repr

/-- External world of a legacy run: `os.getenv` (returning `None` when the
variable is unset — note a variable set to the empty string yields
`some ""`, which is falsy) and the adapter failure switches. -/
structure LEnv where
  getenv : String → Option String
  mastodonFails : String → Bool
  blueskyLoginFails : String → Bool
  blueskySendFails : String → Bool

/-- Models the loop of the legacy `post_to_mastodon` (crosspost.py lines
73-85): a falsy `os.getenv(account["token_env"])` warns and skips, anything
else posts with per-account error capture. -/
def postMastodonL (env : LEnv) (text : List Char) : List LAccount → List Event
  | [] => []
  | a :: rest =>
    (if truthy (env.getenv a.credEnv) then
      .sentPost "Mastodon" a.name text [] ::
        (if env.mastodonFails a.name then [.postFailed "Mastodon" a.name]
         else [.posted "Mastodon" a.name])
    else [.warnMissing "Mastodon" a.name]) ++ postMastodonL env text rest

/-- Models the loop of the legacy `post_to_bluesky` (crosspost.py lines
88-118): a falsy `os.getenv(account["password_env"])` warns and skips,
otherwise login and `send_post` with the computed facets, with per-account
error capture. -/
def postBlueskyL (env : LEnv) (text : List Char) : List LAccount → List Event
  | [] => []
  | a :: rest =>
    (if truthy (env.getenv a.credEnv) then
      if env.blueskyLoginFails a.name then [.postFailed "Bluesky" a.name]
      else
        .sentPost "Bluesky" a.name text (extractFacets text) ::
          (if env.blueskySendFails a.name then [.postFailed "Bluesky" a.name]
           else [.posted "Bluesky" a.name])
    else [.warnMissing "Bluesky" a.name]) ++ postBlueskyL env text rest

end Legacy

/-! ## Derived notions used by the statements -/

/-- Platform a poster event belongs to (`none` for resolution events). -/
def eventPlatform : Event → Option String
  | .sentPost p _ _ _ => some p
  | .posted p _ => some p
  | .postFailed p _ => some p
  | .warnMissing p _ => some p
  | _ => none

/-- The event is poster activity of the named platform: an adapter call or a
per-account outcome line for one of its accounts. -/
def postActivity (p : String) (e : Event) : Bool :=
  eventPlatform e == some p

/-- The three platforms the program knows. -/
inductive Platform where
  | mastodon
  | bluesky
  | twitter
deriving DecidableEq, Repr

/-- Display name of a platform, as it appears in events. -/
def platformLabel : Platform → String
  | .mastodon => "Mastodon"
  | .bluesky => "Bluesky"
  | .twitter => "Twitter"

/-- Section of the configuration file for a platform. -/
def platformSection (cfg : Config) : Platform → Option PlatformConfig
  | .mastodon => cfg.mastodon
  | .bluesky => cfg.bluesky
  | .twitter => cfg.twitter

/-- The platform is absent from the configuration or has `enabled = false`. -/
def disabledOrAbsent (cfg : Config) (p : Platform) : Bool :=
  match platformSection cfg p with
  | none => true
  | some pc => !pc.enabled

/-- Events one Mastodon account contributes to the run, as a function of
that account's own data and its own adapter-failure switch only. -/
def mastodonAccountTrace (fails : Bool) (text : List Char) (la : LoadedAccount) :
    List Event :=
  if truthy la.credential then
    .sentPost "Mastodon" la.account.name text [] ::
      (if fails then [.postFailed "Mastodon" la.account.name]
       else [.posted "Mastodon" la.account.name])
  else [.warnMissing "Mastodon" la.account.name]

/-- Events one Bluesky account contributes to the run, as a function of that
account's own data and its own adapter-failure switches only. -/
def blueskyAccountTrace (loginFails sendFails : Bool) (text : List Char)
    (la : LoadedAccount) : List Event :=
  if truthy la.credential then
    if loginFails then [.postFailed "Bluesky" la.account.name]
    else
      .sentPost "Bluesky" la.account.name text (extractFacets text) ::
        (if sendFails then [.postFailed "Bluesky" la.account.name]
         else [.posted "Bluesky" la.account.name])
  else [.warnMissing "Bluesky" la.account.name]

/-- Events one Twitter account contributes to the run, as a function of that
account's own entry and its own adapter-failure switch only. -/
def twitterAccountTrace (fails : Bool) (text : List Char)
    (la : LoadedTwitterAccount) : List Event :=
  if twitterReady la.credentials then
    .sentPost "Twitter" la.account.name text [] ::
      (if fails then [.postFailed "Twitter" la.account.name]
       else [.posted "Twitter" la.account.name])
  else [.warnMissing "Twitter" la.account.name]

/-- State produced by a `StoreRef` miss resolved through a successful prompt
and store write-back: the value is cached, recorded as written, the prompt
counter advanced once, and the log extended by the store read, the single
prompt, and the store write. -/
def promptResolvedState (service platformName accountName keychainKey v : String)
    (st : RunState) : RunState :=
  { cache := ((service, keychainKey), v) :: st.cache,
    written := ((service, keychainKey), v) :: st.written,
    promptCount := st.promptCount + 1,
    events := st.events ++
      [.storeGet service keychainKey, .prompt platformName accountName,
        .storeSet service keychainKey v] }

/-! ## Concrete fixtures for the witness theorems -/

/-- World with an empty secure store, cancelled prompts, reliable writes and
reliable adapters. -/
def envAbsent : Env where
  storeGet := fun _ _ => some none
  promptAnswer := fun _ => none
  setFails := fun _ _ => false
  parseTwitterJson := fun _ => none
  mastodonFails := fun _ => false
  blueskyLoginFails := fun _ => false
  blueskySendFails := fun _ => false
  twitterFails := fun _ => false

/-- World whose secure store answers every lookup with `"tok"`. -/
def envStocked : Env := { envAbsent with storeGet := fun _ _ => some (some "tok") }

/-- World with an empty secure store where every prompt is answered with
`"newtok"`. -/
def envPrompting : Env := { envAbsent with promptAnswer := fun _ => some "newtok" }

/-- World whose secure store raises on every read and every write, prompts
answered with `"newtok"`. -/
def envBrokenStore : Env :=
  { envPrompting with
      storeGet := fun _ _ => none
      setFails := fun _ _ => true }

/-- Configuration whose only section is a disabled Mastodon platform with one
account referencing the secure store. -/
def cfgDisabledMastodon : Config where
  keychainService := none
  mastodon := some
    { enabled := false,
      accounts := [{ name := "primary", address := "https://mastodon.social",
                     keychainKey := some "mastodon_primary" }] }
  bluesky := none
  twitter := none

/-- Startup state that finds `config.toml` in the working directory and
parses it to the given configuration. -/
def senvParsed (cfg : Config) : SysEnv where
  keyringAvailable := true
  cwdConfig := true
  xdgConfig := false
  createOk := true
  parsed := some cfg

/-- Startup state with no configuration file anywhere and a writable config
directory. -/
def senvNoConfig : SysEnv where
  keyringAvailable := true
  cwdConfig := false
  xdgConfig := false
  createOk := true
  parsed := none

/-- Run state whose cache already holds a value for
`("crosspost", "mastodon_primary")`. -/
def stWithCache : RunState :=
  ⟨[(("crosspost", "mastodon_primary"), "tok")], [], 0, []⟩

/-- Legacy world where only the variable `A_TOKEN` is set. -/
def lenvMixed : Legacy.LEnv where
  getenv := fun v => if v = "A_TOKEN" then some "tok" else none
  mastodonFails := fun _ => false
  blueskyLoginFails := fun _ => false
  blueskySendFails := fun _ => false

/-- Legacy account whose credential variable is set. -/
def laccA : Legacy.LAccount :=
  { name := "alpha", address := "https://m.example", credEnv := "A_TOKEN" }

/-- Legacy account whose credential variable is unset. -/
def laccB : Legacy.LAccount :=
  { name := "beta", address := "https://m2.example", credEnv := "B_TOKEN" }

/-- Example text of §8 of the specification, with one URL repeated. -/
def exText : List Char := ("see https://a.example and again https://a.example").toList

/-- The repeated URL of `exText`. -/
def exUrl : List Char := ("https://a.example").toList

end Crosspost

namespace Crosspost

/-! # Theorems

Facet-extraction lemmas. -/

theorem takeNonSpace_take (l : List Char) :
    l.take (takeNonSpace l).length = takeNonSpace l := by
  induction l with
  | nil => rfl
  | cons c rest ih =>
    by_cases h : isSpaceChar c
    · simp [takeNonSpace, h]
    · simp [takeNonSpace, h, List.take_succ_cons, ih]

theorem schemeLen_take_length (cs : List Char) (n : Nat) (h : schemeLen cs = some n) :
    (cs.take n).length = n := by
  unfold schemeLen at h
  split at h
  · cases h
    simp_all [httpsScheme]
  · split at h
    · cases h
      simp_all [httpScheme]
    · cases h

theorem matchUrlAt_eq (cs url : List Char) (h : matchUrlAt cs = some url) :
    ∃ n, schemeLen cs = some n ∧
      url = cs.take n ++ takeNonSpace (cs.drop n) ∧ takeNonSpace (cs.drop n) ≠ [] := by
  unfold matchUrlAt at h
  cases hs : schemeLen cs with
  | none => rw [hs] at h; cases h
  | some n =>
    rw [hs] at h
    dsimp only at h
    split at h
    · cases h
    · next hb =>
      cases h
      exact ⟨n, rfl, rfl, hb⟩

theorem matchUrlAt_take (cs url : List Char) (h : matchUrlAt cs = some url) :
    cs.take url.length = url ∧ 0 < url.length := by
  obtain ⟨n, hs, hurl, hne⟩ := matchUrlAt_eq cs url h
  have hlen : (cs.take n).length = n := schemeLen_take_length cs n hs
  constructor
  · rw [hurl, List.length_append, hlen, List.take_add, takeNonSpace_take]
  · rw [hurl, List.length_append]
    have := List.length_pos.mpr hne
    omega

theorem findUrlsAux_skip_drop (skip : Nat) (cs : List Char) :
    findUrlsAux skip cs = findUrlsAux 0 (cs.drop skip) := by
  induction cs generalizing skip with
  | nil => cases skip <;> rfl
  | cons c rest ih =>
    cases skip with
    | zero => rfl
    | succ m => rw [findUrlsAux, ih m, List.drop_succ_cons]

theorem findUrls_cons_match (c : Char) (rest url : List Char)
    (h : matchUrlAt (c :: rest) = some url) :
    findUrls (c :: rest) = url :: findUrls ((c :: rest).drop url.length) := by
  have hpos := (matchUrlAt_take _ _ h).2
  unfold findUrls
  rw [findUrlsAux, h]
  cases hu : url.length with
  | zero => omega
  | succ m =>
    simp only [hu, Nat.add_sub_cancel, findUrls, List.drop_succ_cons]
    exact congrArg (url :: ·) (findUrlsAux_skip_drop m rest)

theorem findUrls_cons_nomatch (c : Char) (rest : List Char)
    (h : matchUrlAt (c :: rest) = none) :
    findUrls (c :: rest) = findUrls rest := by
  unfold findUrls
  rw [findUrlsAux, h]

theorem occursAt_cons_succ (c : Char) (rest pat : List Char) (n : Nat) :
    occursAt (c :: rest) pat (n + 1) ↔ occursAt rest pat n := by
  simp [occursAt, List.drop_succ_cons]

theorem occursAt_drop (text pat : List Char) (k n : Nat)
    (h : occursAt (text.drop k) pat n) : occursAt text pat (k + n) := by
  unfold occursAt at h ⊢
  rwa [List.drop_drop] at h

theorem findUrls_mem_occurs (cs : List Char) :
    ∀ url ∈ findUrls cs, ∃ n, occursAt cs url n := by
  match cs with
  | [] => intro url h; simp [findUrls, findUrlsAux] at h
  | c :: rest =>
    intro url hmem
    cases hm : matchUrlAt (c :: rest) with
    | some u =>
      rw [findUrls_cons_match c rest u hm] at hmem
      cases List.mem_cons.mp hmem with
      | inl heq =>
        subst heq
        exact ⟨0, by simpa [occursAt] using (matchUrlAt_take _ _ hm).1⟩
      | inr hmem' =>
        obtain ⟨n, hn⟩ := findUrls_mem_occurs ((c :: rest).drop u.length) url hmem'
        exact ⟨u.length + n, occursAt_drop (c :: rest) url u.length n hn⟩
    | none =>
      rw [findUrls_cons_nomatch c rest hm] at hmem
      obtain ⟨n, hn⟩ := findUrls_mem_occurs rest url hmem
      exact ⟨n + 1, (occursAt_cons_succ c rest url n).mpr hn⟩
termination_by cs.length
decreasing_by
  · simp only [List.length_cons, List.length_drop]
    omega
  · have := (matchUrlAt_take _ _ hm).2
    simp only [List.length_cons, List.length_drop]
    omega

theorem indexOf_first_occurrence (hay needle : List Char)
    (h : ∃ n, occursAt hay needle n) :
    occursAt hay needle (indexOf hay needle) ∧
      ∀ m, m < indexOf hay needle → ¬ occursAt hay needle m := by
  induction hay with
  | nil =>
    obtain ⟨n, hn⟩ := h
    have hnil : needle = [] := by
      simp [occursAt] at hn
      exact hn
    constructor
    · simp [occursAt, indexOf, hnil]
    · intro m hm
      simp [indexOf] at hm
  | cons c rest ih =>
    by_cases hp : (c :: rest).take needle.length = needle
    · constructor
      · simp [indexOf, hp, occursAt]
      · intro m hm
        simp [indexOf, hp] at hm
    · have hidx : indexOf (c :: rest) needle = indexOf rest needle + 1 := by
        simp [indexOf, hp]
      obtain ⟨n, hn⟩ := h
      have hn0 : n ≠ 0 := by
        rintro rfl
        exact hp (by simpa [occursAt] using hn)
      obtain ⟨m, rfl⟩ := Nat.exists_eq_succ_of_ne_zero hn0
      have hrest : occursAt rest needle m := (occursAt_cons_succ _ _ _ _).mp hn
      obtain ⟨hocc, hmin⟩ := ih ⟨m, hrest⟩
      refine ⟨?_, ?_⟩
      · rw [hidx]
        exact (occursAt_cons_succ _ _ _ _).mpr hocc
      · intro m' hm'
        rw [hidx] at hm'
        cases m' with
        | zero =>
          intro hc
          exact hp (by simpa [occursAt] using hc)
        | succ k =>
          intro hc
          exact hmin k (by omega) ((occursAt_cons_succ _ _ _ _).mp hc)

theorem extractFacets_getElem (text : List Char) (i : Nat) (u : List Char)
    (h : (findUrls text)[i]? = some u) :
    (extractFacets text)[i]? =
      some { byteStart := indexOf text u, byteEnd := indexOf text u + u.length,
             uri := u } := by
  unfold extractFacets
  rw [List.getElem?_map, h]
  rfl

/-! ## Claim C9 -/

/-- C9: when the same URL string is matched more than once in a text,
post_to_bluesky emits one facet per match (the facet list and the match list
have equal length), and every facet carrying that URL is one and the same:
anchored by the find-first-occurrence lookup `text.index(url)` at the span of
the URL's first occurrence in the text, so a repeated occurrence receives a
duplicate span rather than its own. -/
theorem repeated_urls_get_first_occurrence_span (text : List Char) (i j : Nat)
    (u : List Char) (hi : (findUrls text)[i]? = some u)
    (hj : (findUrls text)[j]? = some u) :
    (extractFacets text).length = (findUrls text).length ∧
    ∃ f : Facet,
      (extractFacets text)[i]? = some f ∧ (extractFacets text)[j]? = some f ∧
      f.uri = u ∧ f.byteEnd = f.byteStart + u.length ∧
      occursAt text u f.byteStart ∧
      ∀ m, m < f.byteStart → ¬ occursAt text u m := by
  have hmem : u ∈ findUrls text := List.getElem?_mem hi
  obtain ⟨n, hn⟩ := findUrls_mem_occurs text u hmem
  obtain ⟨hocc, hmin⟩ := indexOf_first_occurrence text u ⟨n, hn⟩
  refine ⟨by simp [extractFacets], ?_⟩
  exact ⟨_, extractFacets_getElem text i u hi, extractFacets_getElem text j u hj,
    rfl, rfl, hocc, hmin⟩

/-- Witness for C9 at the repeated-URL example of §8. -/
theorem repeated_urls_witness :
    (findUrls exText)[0]? = some exUrl ∧ (findUrls exText)[1]? = some exUrl ∧
    ((extractFacets exText).length = (findUrls exText).length ∧
      ∃ f : Facet,
        (extractFacets exText)[0]? = some f ∧ (extractFacets exText)[1]? = some f ∧
        f.uri = exUrl ∧ f.byteEnd = f.byteStart + exUrl.length ∧
        occursAt exText exUrl f.byteStart ∧
        ∀ m, m < f.byteStart → ¬ occursAt exText exUrl m) :=
  ⟨by decide, by decide,
    repeated_urls_get_first_occurrence_span exText 0 1 exUrl (by decide) (by decide)⟩

/-! ## Claim C1 -/

/-- C1: refuted by the code — the spans post_to_bluesky computes are
code-point indices (`text.index(url)` and `len(url)`), not byte offsets into
the UTF-8 encoding.  On the text `"é https://a.b"`, whose single URL is
preceded by a two-byte character, the facet gets span `[2, 13)`, but bytes
2 to 13 of the UTF-8 encoding do not reconstruct the URL; the URL's byte
span is `[3, 14)`.  (The two notions coincide exactly on ASCII-only
texts.) -/
theorem facet_spans_are_code_point_indices_cex :
    findUrls ("é https://a.b").toList = [("https://a.b").toList] ∧
    extractFacets ("é https://a.b").toList =
      [{ byteStart := 2, byteEnd := 13, uri := ("https://a.b").toList }] ∧
    utf8ByteSlice ("é https://a.b").toList 2 13 ≠
      utf8Encode ("https://a.b").toList ∧
    utf8ByteSlice ("é https://a.b").toList 3 14 =
      utf8Encode ("https://a.b").toList :=
  ⟨by decide, by decide, by decide, by decide⟩

end Crosspost

namespace Crosspost

/-! ## Credential-resolution lemmas -/

theorem lookupAssoc_mem (l : List ((String × String) × String)) (k : String × String)
    (v : String) (h : lookupAssoc l k = some v) : (k, v) ∈ l := by
  induction l with
  | nil => cases h
  | cons kv rest ih =>
    obtain ⟨k', v'⟩ := kv
    rw [lookupAssoc] at h
    split at h
    · cases h
      simp_all
    · exact List.mem_cons_of_mem _ (ih h)

theorem resolveCredential_cache_hit (env : Env) (service an pn key : String)
    (skip : Bool) (st : RunState) (v : String)
    (h : lookupAssoc st.cache (service, key) = some v) :
    resolveCredential env service an pn key skip st = (some v, st) := by
  unfold resolveCredential
  rw [h]

/-! ## Claim C4 -/

/-- C4: once a `(service, keychain_key)` pair has been resolved in a run —
that is, the pair is in the run-scoped cache — any later resolution of the
same pair returns the cached value and leaves the run state untouched: no
store read, no prompt, no event of any kind. -/
theorem cache_hit_returns_without_store_or_prompt (env : Env)
    (service an pn key : String) (skip : Bool) (st : RunState) (v : String)
    (h : lookupAssoc st.cache (service, key) = some v) :
    resolveCredential env service an pn key skip st = (some v, st) :=
  resolveCredential_cache_hit env service an pn key skip st v h

/-- Witness for C4: a cached Mastodon token is returned unchanged even though
the store would answer with a different value and the prompt would too. -/
theorem cache_hit_witness :
    lookupAssoc stWithCache.cache ("crosspost", "mastodon_primary") = some "tok" ∧
    resolveCredential envStocked "crosspost" "primary" "Mastodon"
        "mastodon_primary" false stWithCache = (some "tok", stWithCache) :=
  ⟨by decide,
    cache_hit_returns_without_store_or_prompt envStocked "crosspost" "primary"
      "Mastodon" "mastodon_primary" false stWithCache "tok" (by decide)⟩

/-! ## Claim C5 -/

/-- C5: a `StoreRef` absent from the secure store, resolved with prompting
allowed, prompts exactly once; on non-empty input the value is written back
to the store under the same `(service, keychain_key)`, cached, and returned —
so a second resolution of the same reference in the same run is served from
the cache with no further prompt and no further store read — and a cancelled
or empty prompt yields absent. -/
theorem store_miss_prompts_once_and_persists (env : Env)
    (service an pn key : String) (st : RunState) (v : String)
    (hc : lookupAssoc st.cache (service, key) = none)
    (hw : lookupAssoc st.written (service, key) = none)
    (hs : env.storeGet service key = some none)
    (hp : env.promptAnswer st.promptCount = some v)
    (hv : v ≠ "")
    (hset : env.setFails service key = false) :
    resolveCredential env service an pn key false st =
      (some v, promptResolvedState service pn an key v st) ∧
    resolveCredential env service an pn key false
        (promptResolvedState service pn an key v st) =
      (some v, promptResolvedState service pn an key v st) ∧
    (∀ env' : Env, env'.storeGet service key = some none →
      (env'.promptAnswer st.promptCount = none ∨
        env'.promptAnswer st.promptCount = some "") →
      (resolveCredential env' service an pn key false st).1 = none) := by
  refine ⟨?_, ?_, ?_⟩
  · simp only [resolveCredential, getFromKeychain, promptPhase, promptForCredential,
      logEvent, hc, hw, hs, hp, promptResolvedState]
    simp [hv, hset, List.append_assoc]
  · exact resolveCredential_cache_hit env service an pn key false _ v
      (by simp [promptResolvedState, lookupAssoc])
  · intro env' hs' hp'
    cases hp' with
    | inl hcancel =>
      simp only [resolveCredential, getFromKeychain, promptPhase, promptForCredential,
        logEvent, hc, hw, hs', hcancel]
      simp
    | inr hempty =>
      simp only [resolveCredential, getFromKeychain, promptPhase, promptForCredential,
        logEvent, hc, hw, hs', hempty]
      simp

/-- Witness for C5: resolving a Bluesky key against an empty store with the
prompt answered by `"newtok"`. -/
theorem store_miss_prompt_witness :
    lookupAssoc initialState.cache ("crosspost", "bluesky_main") = none ∧
    envPrompting.storeGet "crosspost" "bluesky_main" = some none ∧
    envPrompting.promptAnswer 0 = some "newtok" ∧
    (resolveCredential envPrompting "crosspost" "main" "Bluesky" "bluesky_main"
        false initialState =
      (some "newtok",
        promptResolvedState "crosspost" "Bluesky" "main" "bluesky_main" "newtok"
          initialState) ∧
    resolveCredential envPrompting "crosspost" "main" "Bluesky" "bluesky_main"
        false (promptResolvedState "crosspost" "Bluesky" "main" "bluesky_main"
          "newtok" initialState) =
      (some "newtok",
        promptResolvedState "crosspost" "Bluesky" "main" "bluesky_main" "newtok"
          initialState) ∧
    (∀ env' : Env, env'.storeGet "crosspost" "bluesky_main" = some none →
      (env'.promptAnswer initialState.promptCount = none ∨
        env'.promptAnswer initialState.promptCount = some "") →
      (resolveCredential env' "crosspost" "main" "Bluesky" "bluesky_main" false
        initialState).1 = none)) :=
  ⟨by decide, by decide, by decide,
    store_miss_prompts_once_and_persists envPrompting "crosspost" "main" "Bluesky"
      "bluesky_main" initialState "newtok" (by decide) (by decide) (by decide)
      (by decide) (by decide) (by decide)⟩

/-! ## Claim C7 -/

theorem mainRun_exit_env_ignored (senv : SysEnv) (args : Args) (env1 env2 : Env) :
    (mainRun senv env1 args).1 = (mainRun senv env2 args).1 := by
  obtain ⟨ka, cwd, xdg, co, parsed⟩ := senv
  obtain ⟨text, setup⟩ := args
  cases ka <;> cases cwd <;> cases xdg <;> cases co <;> cases parsed <;>
    cases setup <;> cases text <;> simp [mainRun]

theorem promptPhase_congr (env1 env2 : Env) (service an pn key : String)
    (skip : Bool) (st : RunState)
    (hpa : env1.promptAnswer = env2.promptAnswer)
    (hsf : env1.setFails = env2.setFails) :
    promptPhase env1 service an pn key skip st =
      promptPhase env2 service an pn key skip st := by
  unfold promptPhase promptForCredential
  rw [hpa, hsf]

theorem resolveCredential_read_error_as_absent (env : Env)
    (service an pn key : String) (skip : Bool) (st : RunState)
    (h : env.storeGet service key = none) :
    resolveCredential env service an pn key skip st =
      resolveCredential
        { env with storeGet := fun s' k' =>
            if s' = service ∧ k' = key then some none else env.storeGet s' k' }
        service an pn key skip st := by
  unfold resolveCredential
  cases hc : lookupAssoc st.cache (service, key) with
  | some v => rfl
  | none =>
    unfold getFromKeychain
    cases hwr : lookupAssoc (logEvent st (.storeGet service key)).written
        (service, key) with
    | some v =>
      simp only [hwr]
      by_cases hv : v = ""
      · subst hv
        rw [if_pos rfl, if_pos rfl]
        exact promptPhase_congr _ _ _ _ _ _ _ _ rfl rfl
      · simp [hv]
    | none =>
      simp only [hwr, h]
      simp
      exact promptPhase_congr _ _ _ _ _ _ _ _ rfl rfl

theorem resolveCredential_write_error_absent (env : Env)
    (service an pn key : String) (st : RunState) (v : String)
    (hc : lookupAssoc st.cache (service, key) = none)
    (hw : lookupAssoc st.written (service, key) = none)
    (hs : env.storeGet service key = none ∨ env.storeGet service key = some none)
    (hp : env.promptAnswer st.promptCount = some v)
    (hv : v ≠ "")
    (hset : env.setFails service key = true) :
    resolveCredential env service an pn key false st =
      (none,
        { st with
            promptCount := st.promptCount + 1,
            events := st.events ++ [.storeGet service key, .prompt pn an,
              .storeSet service key v] }) := by
  cases hs with
  | inl herr =>
    simp only [resolveCredential, getFromKeychain, promptPhase, promptForCredential,
      logEvent, hc, hw, herr, hp]
    simp [hv, hset, List.append_assoc]
  | inr habsent =>
    simp only [resolveCredential, getFromKeychain, promptPhase, promptForCredential,
      logEvent, hc, hw, habsent, hp]
    simp [hv, hset, List.append_assoc]

/-- C7: secure-store I/O failures are caught and never fatal.  A read that
raises behaves exactly as if the credential were absent from the store (the
whole resolution is unchanged when the raising entry is replaced by a clean
miss); a write-back failure after a prompt yields absent, leaving the cache
and the written set untouched; and no secure-store behaviour can change the
process exit code (the exit code is the same under any two worlds). -/
theorem store_io_errors_nonfatal (env : Env) (service an pn key : String)
    (skip : Bool) (st : RunState)
    (h : env.storeGet service key = none) :
    (resolveCredential env service an pn key skip st =
      resolveCredential
        { env with storeGet := fun s' k' =>
            if s' = service ∧ k' = key then some none else env.storeGet s' k' }
        service an pn key skip st) ∧
    (∀ v : String, lookupAssoc st.cache (service, key) = none →
      lookupAssoc st.written (service, key) = none →
      env.promptAnswer st.promptCount = some v → v ≠ "" →
      env.setFails service key = true →
      resolveCredential env service an pn key false st =
        (none,
          { st with
              promptCount := st.promptCount + 1,
              events := st.events ++ [.storeGet service key, .prompt pn an,
                .storeSet service key v] })) ∧
    (∀ (senv : SysEnv) (args : Args) (env2 : Env),
      (mainRun senv env args).1 = (mainRun senv env2 args).1) :=
  ⟨resolveCredential_read_error_as_absent env service an pn key skip st h,
    fun v hc hw hp hv hset =>
      resolveCredential_write_error_absent env service an pn key st v hc hw
        (Or.inl h) hp hv hset,
    fun senv args env2 => mainRun_exit_env_ignored senv args env env2⟩

/-- Witness for C7: a store whose every read raises and every write fails. -/
theorem store_io_errors_witness :
    envBrokenStore.storeGet "crosspost" "bluesky_main" = none ∧
    ((resolveCredential envBrokenStore "crosspost" "main" "Bluesky" "bluesky_main"
        false initialState =
      resolveCredential
        { envBrokenStore with storeGet := fun s' k' =>
            if s' = "crosspost" ∧ k' = "bluesky_main" then some none
            else envBrokenStore.storeGet s' k' }
        "crosspost" "main" "Bluesky" "bluesky_main" false initialState) ∧
    (∀ v : String,
      lookupAssoc initialState.cache ("crosspost", "bluesky_main") = none →
      lookupAssoc initialState.written ("crosspost", "bluesky_main") = none →
      envBrokenStore.promptAnswer initialState.promptCount = some v → v ≠ "" →
      envBrokenStore.setFails "crosspost" "bluesky_main" = true →
      resolveCredential envBrokenStore "crosspost" "main" "Bluesky"
          "bluesky_main" false initialState =
        (none,
          { initialState with
              promptCount := initialState.promptCount + 1,
              events := initialState.events ++
                [.storeGet "crosspost" "bluesky_main", .prompt "Bluesky" "main",
                  .storeSet "crosspost" "bluesky_main" v] })) ∧
    (∀ (senv : SysEnv) (args : Args) (env2 : Env),
      (mainRun senv envBrokenStore args).1 = (mainRun senv env2 args).1)) :=
  by
  refine ⟨rfl, ?_⟩
  exact store_io_errors_nonfatal envBrokenStore "crosspost" "main" "Bluesky"
    "bluesky_main" false initialState rfl

/-! ## Claim C10 -/

theorem getFromKeychain_cache (env : Env) (service key : String) (st : RunState) :
    (getFromKeychain env service key st).2.cache = st.cache := by
  unfold getFromKeychain logEvent
  cases h1 : lookupAssoc
      ({ st with events := st.events ++ [Event.storeGet service key] }).written
      (service, key) with
  | some v => simp [h1]
  | none =>
    cases h2 : env.storeGet service key with
    | none => simp [h1, h2]
    | some r => simp [h1, h2]

theorem promptPhase_nonempty (env : Env) (service an pn key : String)
    (skip : Bool) (st : RunState) :
    ((promptPhase env service an pn key skip st).1 = none ∧
      (promptPhase env service an pn key skip st).2.cache = st.cache) ∨
    (∃ v, v ≠ "" ∧ (promptPhase env service an pn key skip st).1 = some v ∧
      (promptPhase env service an pn key skip st).2.cache =
        ((service, key), v) :: st.cache) := by
  unfold promptPhase promptForCredential logEvent
  by_cases hskip : skip
  · simp [hskip]
  · simp only [hskip, if_false, Bool.false_eq_true]
    cases hans : env.promptAnswer st.promptCount with
    | none => simp [hans]
    | some v =>
      by_cases hv : v = ""
      · simp [hans, hv]
      · by_cases hsf : env.setFails service key
        · simp [hans, hv, hsf]
        · right
          exact ⟨v, hv, by simp [hans, hv, hsf], by simp [hans, hv, hsf]⟩

/-- C10: for every input and every reachable state of the cache, the store
and the prompt, credential resolution returns either absent or a non-empty
string, and the cache never holds an empty string: starting from a cache all
of whose values are non-empty (as the empty initial cache is), the result is
`none` or a non-empty secret, and the resulting cache again holds only
non-empty values. -/
theorem resolution_never_yields_or_caches_empty (env : Env)
    (service an pn key : String) (skip : Bool) (st : RunState)
    (hwf : ∀ kv ∈ st.cache, kv.2 ≠ "") :
    ((resolveCredential env service an pn key skip st).1 = none ∨
      ∃ v, (resolveCredential env service an pn key skip st).1 = some v ∧ v ≠ "") ∧
    (∀ kv ∈ (resolveCredential env service an pn key skip st).2.cache, kv.2 ≠ "") := by
  unfold resolveCredential
  cases hc : lookupAssoc st.cache (service, key) with
  | some v =>
    have hv : v ≠ "" := hwf _ (lookupAssoc_mem _ _ _ hc)
    exact ⟨Or.inr ⟨v, rfl, hv⟩, hwf⟩
  | none =>
    have hgc := getFromKeychain_cache env service key st
    cases hgk : (getFromKeychain env service key st).1 with
    | some v =>
      by_cases hv : v = ""
      · simp only [hgk, hv, if_pos, reduceIte]
        rcases promptPhase_nonempty env service an pn key skip
            (getFromKeychain env service key st).2 with ⟨h1, h2⟩ | ⟨w, hw, h1, h2⟩
        · refine ⟨Or.inl h1, ?_⟩
          rw [h2, hgc]
          exact hwf
        · refine ⟨Or.inr ⟨w, h1, hw⟩, ?_⟩
          rw [h2, hgc]
          intro kv hkv
          rcases List.mem_cons.mp hkv with rfl | hkv'
          · exact hw
          · exact hwf _ hkv'
      · simp only [hgk, if_neg hv]
        refine ⟨Or.inr ⟨v, rfl, hv⟩, ?_⟩
        intro kv hkv
        rcases List.mem_cons.mp hkv with rfl | hkv'
        · exact hv
        · rw [hgc] at hkv'
          exact hwf _ hkv'
    | none =>
      simp only [hgk]
      rcases promptPhase_nonempty env service an pn key skip
          (getFromKeychain env service key st).2 with ⟨h1, h2⟩ | ⟨w, hw, h1, h2⟩
      · refine ⟨Or.inl h1, ?_⟩
        rw [h2, hgc]
        exact hwf
      · refine ⟨Or.inr ⟨w, h1, hw⟩, ?_⟩
        rw [h2, hgc]
        intro kv hkv
        rcases List.mem_cons.mp hkv with rfl | hkv'
        · exact hw
        · exact hwf _ hkv'

/-- Witness for C10: resolution from the empty initial cache with a prompted
value. -/
theorem resolution_nonempty_witness :
    (∀ kv ∈ initialState.cache, kv.2 ≠ "") ∧
    (((resolveCredential envPrompting "crosspost" "main" "Bluesky" "bluesky_main"
        false initialState).1 = none ∨
      ∃ v, (resolveCredential envPrompting "crosspost" "main" "Bluesky"
        "bluesky_main" false initialState).1 = some v ∧ v ≠ "") ∧
    (∀ kv ∈ (resolveCredential envPrompting "crosspost" "main" "Bluesky"
        "bluesky_main" false initialState).2.cache, kv.2 ≠ "")) :=
  ⟨by simp [initialState],
    resolution_never_yields_or_caches_empty envPrompting "crosspost" "main"
      "Bluesky" "bluesky_main" false initialState (by simp [initialState])⟩

/-! ## Claim C6 -/

theorem postMastodonAccounts_trace (env : Env) (text : List Char)
    (accs : List LoadedAccount) (st : RunState) :
    postMastodonAccounts env text accs st =
      { st with events := st.events ++
          (accs.map fun la =>
            mastodonAccountTrace (env.mastodonFails la.account.name) text la).flatten } := by
  induction accs generalizing st with
  | nil => simp [postMastodonAccounts]
  | cons la rest ih =>
    rw [postMastodonAccounts, ih]
    unfold mastodonAccountTrace
    by_cases ht : truthy la.credential
    · by_cases hf : env.mastodonFails la.account.name
      · simp [ht, hf, logEvent, List.append_assoc]
      · simp [ht, hf, logEvent, List.append_assoc]
    · simp [ht, logEvent, List.append_assoc]

theorem postBlueskyAccounts_trace (env : Env) (text : List Char)
    (accs : List LoadedAccount) (st : RunState) :
    postBlueskyAccounts env text accs st =
      { st with events := st.events ++
          (accs.map fun la =>
            blueskyAccountTrace (env.blueskyLoginFails la.account.name)
              (env.blueskySendFails la.account.name) text la).flatten } := by
  induction accs generalizing st with
  | nil => simp [postBlueskyAccounts]
  | cons la rest ih =>
    rw [postBlueskyAccounts, ih]
    unfold blueskyAccountTrace
    by_cases ht : truthy la.credential
    · by_cases hl : env.blueskyLoginFails la.account.name
      · simp [ht, hl, logEvent, List.append_assoc]
      · by_cases hs : env.blueskySendFails la.account.name
        · simp [ht, hl, hs, logEvent, List.append_assoc]
        · simp [ht, hl, hs, logEvent, List.append_assoc]
    · simp [ht, logEvent, List.append_assoc]

/-- C6: adapter errors are isolated at the account boundary.  The Mastodon
and Bluesky account loops each equal the plain concatenation of independent
per-account traces, where one account's trace is a function of that
account's own entry and that account's own adapter-failure switches alone:
every account contributes exactly its own trace (a warning, a success, or a
caught failure) whatever happens to the accounts before or after it, and no
failure interrupts the batch or leaks into another account's outcome.  The
cache, written set and prompt counter are untouched by posting. -/
theorem adapter_errors_isolated_per_account (env : Env) (text : List Char)
    (accs : List LoadedAccount) (st : RunState) :
    (postMastodonAccounts env text accs st =
      { st with events := st.events ++
          (accs.map fun la =>
            mastodonAccountTrace (env.mastodonFails la.account.name) text la).flatten }) ∧
    (postBlueskyAccounts env text accs st =
      { st with events := st.events ++
          (accs.map fun la =>
            blueskyAccountTrace (env.blueskyLoginFails la.account.name)
              (env.blueskySendFails la.account.name) text la).flatten }) :=
  ⟨postMastodonAccounts_trace env text accs st,
    postBlueskyAccounts_trace env text accs st⟩

/-! ## Claim C2 -/

theorem postTwitterAccounts_trace (env : Env) (text : List Char)
    (accs : List LoadedTwitterAccount) (st : RunState) :
    postTwitterAccounts env text accs st =
      { st with events := st.events ++
          (accs.map fun la =>
            twitterAccountTrace (env.twitterFails la.account.name) text la).flatten } := by
  induction accs generalizing st with
  | nil => simp [postTwitterAccounts]
  | cons la rest ih =>
    rw [postTwitterAccounts, ih]
    unfold twitterAccountTrace
    by_cases ht : twitterReady la.credentials
    · by_cases hf : env.twitterFails la.account.name
      · simp [ht, hf, logEvent, List.append_assoc]
      · simp [ht, hf, logEvent, List.append_assoc]
    · simp [ht, logEvent, List.append_assoc]

theorem mastodonAccountTrace_platform (fails : Bool) (text : List Char)
    (la : LoadedAccount) :
    ∀ e ∈ mastodonAccountTrace fails text la, eventPlatform e = some "Mastodon" := by
  intro e he
  unfold mastodonAccountTrace at he
  by_cases ht : truthy la.credential
  · by_cases hf : fails
    · simp [ht, hf] at he
      rcases he with rfl | rfl <;> rfl
    · simp [ht, hf] at he
      rcases he with rfl | rfl <;> rfl
  · simp [ht] at he
    subst he
    rfl

theorem blueskyAccountTrace_platform (loginFails sendFails : Bool)
    (text : List Char) (la : LoadedAccount) :
    ∀ e ∈ blueskyAccountTrace loginFails sendFails text la,
      eventPlatform e = some "Bluesky" := by
  intro e he
  unfold blueskyAccountTrace at he
  by_cases ht : truthy la.credential
  · by_cases hl : loginFails
    · simp [ht, hl] at he
      subst he
      rfl
    · by_cases hs : sendFails
      · simp [ht, hl, hs] at he
        rcases he with rfl | rfl <;> rfl
      · simp [ht, hl, hs] at he
        rcases he with rfl | rfl <;> rfl
  · simp [ht] at he
    subst he
    rfl

theorem twitterAccountTrace_platform (fails : Bool) (text : List Char)
    (la : LoadedTwitterAccount) :
    ∀ e ∈ twitterAccountTrace fails text la, eventPlatform e = some "Twitter" := by
  intro e he
  unfold twitterAccountTrace at he
  by_cases ht : twitterReady la.credentials
  · by_cases hf : fails
    · simp [ht, hf] at he
      rcases he with rfl | rfl <;> rfl
    · simp [ht, hf] at he
      rcases he with rfl | rfl <;> rfl
  · simp [ht] at he
    subst he
    rfl

theorem postToMastodon_events (env : Env) (text : List Char) (lc : LoadedConfig)
    (st : RunState) :
    ∃ l, (postToMastodon env text lc st).events = st.events ++ l ∧
      ∀ e ∈ l, eventPlatform e = some "Mastodon" := by
  unfold postToMastodon
  cases hm : lc.mastodon with
  | none => exact ⟨[], by simp, by simp⟩
  | some pr =>
    obtain ⟨enabled, accs⟩ := pr
    by_cases he : enabled = true
    · refine ⟨(accs.map fun la =>
          mastodonAccountTrace (env.mastodonFails la.account.name) text la).flatten,
        ?_, ?_⟩
      · simp [he, postMastodonAccounts_trace]
      · intro e hemem
        rcases List.mem_flatten.mp hemem with ⟨s, hs, hes⟩
        rcases List.mem_map.mp hs with ⟨la, _, rfl⟩
        exact mastodonAccountTrace_platform _ _ _ e hes
    · exact ⟨[], by simp [he], by simp⟩

theorem postToBluesky_events (env : Env) (text : List Char) (lc : LoadedConfig)
    (st : RunState) :
    ∃ l, (postToBluesky env text lc st).events = st.events ++ l ∧
      ∀ e ∈ l, eventPlatform e = some "Bluesky" := by
  unfold postToBluesky
  cases hm : lc.bluesky with
  | none => exact ⟨[], by simp, by simp⟩
  | some pr =>
    obtain ⟨enabled, accs⟩ := pr
    by_cases he : enabled = true
    · refine ⟨(accs.map fun la =>
          blueskyAccountTrace (env.blueskyLoginFails la.account.name)
            (env.blueskySendFails la.account.name) text la).flatten, ?_, ?_⟩
      · simp [he, postBlueskyAccounts_trace]
      · intro e hemem
        rcases List.mem_flatten.mp hemem with ⟨s, hs, hes⟩
        rcases List.mem_map.mp hs with ⟨la, _, rfl⟩
        exact blueskyAccountTrace_platform _ _ _ _ e hes
    · exact ⟨[], by simp [he], by simp⟩

theorem postToTwitter_events (env : Env) (text : List Char) (lc : LoadedConfig)
    (st : RunState) :
    ∃ l, (postToTwitter env text lc st).events = st.events ++ l ∧
      ∀ e ∈ l, eventPlatform e = some "Twitter" := by
  unfold postToTwitter
  cases hm : lc.twitter with
  | none => exact ⟨[], by simp, by simp⟩
  | some pr =>
    obtain ⟨enabled, accs⟩ := pr
    by_cases he : enabled = true
    · refine ⟨(accs.map fun la =>
          twitterAccountTrace (env.twitterFails la.account.name) text la).flatten,
        ?_, ?_⟩
      · simp [he, postTwitterAccounts_trace]
      · intro e hemem
        rcases List.mem_flatten.mp hemem with ⟨s, hs, hes⟩
        rcases List.mem_map.mp hs with ⟨la, _, rfl⟩
        exact twitterAccountTrace_platform _ _ _ e hes
    · exact ⟨[], by simp [he], by simp⟩

theorem postToMastodon_disabled (env : Env) (text : List Char) (lc : LoadedConfig)
    (st : RunState)
    (h : lc.mastodon = none ∨ ∃ accs, lc.mastodon = some (false, accs)) :
    postToMastodon env text lc st = st := by
  unfold postToMastodon
  rcases h with h | ⟨accs, h⟩ <;> simp [h]

theorem postToBluesky_disabled (env : Env) (text : List Char) (lc : LoadedConfig)
    (st : RunState)
    (h : lc.bluesky = none ∨ ∃ accs, lc.bluesky = some (false, accs)) :
    postToBluesky env text lc st = st := by
  unfold postToBluesky
  rcases h with h | ⟨accs, h⟩ <;> simp [h]

theorem postToTwitter_disabled (env : Env) (text : List Char) (lc : LoadedConfig)
    (st : RunState)
    (h : lc.twitter = none ∨ ∃ accs, lc.twitter = some (false, accs)) :
    postToTwitter env text lc st = st := by
  unfold postToTwitter
  rcases h with h | ⟨accs, h⟩ <;> simp [h]

theorem getFromKeychain_events (env : Env) (service key : String) (st : RunState) :
    (getFromKeychain env service key st).2.events =
      st.events ++ [Event.storeGet service key] := by
  unfold getFromKeychain logEvent
  cases h1 : lookupAssoc
      ({ st with events := st.events ++ [Event.storeGet service key] }).written
      (service, key) with
  | some v => simp [h1]
  | none =>
    cases h2 : env.storeGet service key with
    | none => simp [h1, h2]
    | some r => simp [h1, h2]

theorem promptPhase_events (env : Env) (service an pn key : String) (skip : Bool)
    (st : RunState) :
    ∃ l, (promptPhase env service an pn key skip st).2.events = st.events ++ l ∧
      ∀ e ∈ l, eventPlatform e = none := by
  by_cases hskip : skip = true
  · exact ⟨[], by simp [promptPhase, hskip], by simp⟩
  · cases hans : env.promptAnswer st.promptCount with
    | none =>
      exact ⟨[.prompt pn an],
        by simp [promptPhase, promptForCredential, logEvent, hskip, hans],
        by simp [eventPlatform]⟩
    | some v =>
      by_cases hv : v = ""
      · exact ⟨[.prompt pn an],
          by simp [promptPhase, promptForCredential, logEvent, hskip, hans, hv],
          by simp [eventPlatform]⟩
      · by_cases hsf : env.setFails service key = true
        · exact ⟨[.prompt pn an, .storeSet service key v],
            by simp [promptPhase, promptForCredential, logEvent, hskip, hans, hv,
              hsf, List.append_assoc],
            by simp [eventPlatform]⟩
        · exact ⟨[.prompt pn an, .storeSet service key v],
            by simp [promptPhase, promptForCredential, logEvent, hskip, hans, hv,
              hsf, List.append_assoc],
            by simp [eventPlatform]⟩

theorem resolveCredential_events (env : Env) (service an pn key : String)
    (skip : Bool) (st : RunState) :
    ∃ l, (resolveCredential env service an pn key skip st).2.events =
        st.events ++ l ∧ ∀ e ∈ l, eventPlatform e = none := by
  unfold resolveCredential
  cases hc : lookupAssoc st.cache (service, key) with
  | some v => exact ⟨[], by simp, by simp⟩
  | none =>
    have hg := getFromKeychain_events env service key st
    cases hgk : (getFromKeychain env service key st).1 with
    | some v =>
      by_cases hv : v = ""
      · obtain ⟨l, hl, hpl⟩ := promptPhase_events env service an pn key skip
          (getFromKeychain env service key st).2
        refine ⟨[Event.storeGet service key] ++ l, ?_, ?_⟩
        · simp only [hgk, hv, reduceIte]
          rw [hl, hg, List.append_assoc]
        · intro e he
          rcases List.mem_append.mp he with he | he
          · rcases List.mem_singleton.mp he with rfl
            rfl
          · exact hpl e he
      · refine ⟨[Event.storeGet service key], ?_, ?_⟩
        · simp only [hgk, if_neg hv]
          exact hg
        · intro e he
          rcases List.mem_singleton.mp he with rfl
          rfl
    | none =>
      obtain ⟨l, hl, hpl⟩ := promptPhase_events env service an pn key skip
        (getFromKeychain env service key st).2
      refine ⟨[Event.storeGet service key] ++ l, ?_, ?_⟩
      · simp only [hgk]
        rw [hl, hg, List.append_assoc]
      · intro e he
        rcases List.mem_append.mp he with he | he
        · rcases List.mem_singleton.mp he with rfl
          rfl
        · exact hpl e he

theorem resolvePlatformAccounts_events (env : Env) (service pn : String)
    (skip : Bool) (accs : List Account) (st : RunState) :
    ∃ l, (resolvePlatformAccounts env service pn skip accs st).2.events =
        st.events ++ l ∧ ∀ e ∈ l, eventPlatform e = none := by
  induction accs generalizing st with
  | nil => exact ⟨[], by simp [resolvePlatformAccounts], by simp⟩
  | cons a rest ih =>
    have hhead : ∃ l1,
        (match a.keychainKey with
          | some k => resolveCredential env service a.name pn k skip st
          | none => ((none : Option String), st)).2.events = st.events ++ l1 ∧
        ∀ e ∈ l1, eventPlatform e = none := by
      cases hk : a.keychainKey with
      | some k => simpa using resolveCredential_events env service a.name pn k skip st
      | none => exact ⟨[], by simp, by simp⟩
    obtain ⟨l1, hl1, hp1⟩ := hhead
    obtain ⟨l2, hl2, hp2⟩ := ih
        (match a.keychainKey with
          | some k => resolveCredential env service a.name pn k skip st
          | none => ((none : Option String), st)).2
    refine ⟨l1 ++ l2, ?_, ?_⟩
    · rw [resolvePlatformAccounts]
      simp only
      rw [hl2, hl1, List.append_assoc]
    · intro e he
      rcases List.mem_append.mp he with he | he
      · exact hp1 e he
      · exact hp2 e he

theorem loadTwitterAccounts_events (env : Env) (service : String) (skip : Bool)
    (accs : List Account) (st : RunState) :
    ∃ l, (loadTwitterAccounts env service skip accs st).2.events =
        st.events ++ l ∧ ∀ e ∈ l, eventPlatform e = none := by
  induction accs generalizing st with
  | nil => exact ⟨[], by simp [loadTwitterAccounts], by simp⟩
  | cons a rest ih =>
    have hhead : ∃ l1,
        (match a.keychainKey with
          | none => ((none : Option TwitterCreds), st)
          | some k =>
            if skip then (none, st)
            else
              let gr := getFromKeychain env service k st
              match gr.1 with
              | none => (none, gr.2)
              | some s =>
                if s = "" then (none, gr.2)
                else
                  match env.parseTwitterJson s with
                  | none => (none, logEvent gr.2 (.invalidCreds a.name))
                  | some c => (some c, gr.2)).2.events = st.events ++ l1 ∧
        ∀ e ∈ l1, eventPlatform e = none := by
      cases hk : a.keychainKey with
      | none => exact ⟨[], by simp, by simp⟩
      | some k =>
        by_cases hskip : skip = true
        · exact ⟨[], by simp [hskip], by simp⟩
        · have hg := getFromKeychain_events env service k st
          cases hgk : (getFromKeychain env service k st).1 with
          | none =>
            refine ⟨[Event.storeGet service k], ?_, ?_⟩
            · simp only [hskip, Bool.false_eq_true, if_false, hgk]
              exact hg
            · intro e he
              rcases List.mem_singleton.mp he with rfl
              rfl
          | some s =>
            by_cases hs : s = ""
            · refine ⟨[Event.storeGet service k], ?_, ?_⟩
              · simp only [hskip, Bool.false_eq_true, if_false, hgk, hs, reduceIte]
                exact hg
              · intro e he
                rcases List.mem_singleton.mp he with rfl
                rfl
            · cases hp : env.parseTwitterJson s with
              | none =>
                refine ⟨[Event.storeGet service k, Event.invalidCreds a.name], ?_, ?_⟩
                · simp only [hskip, Bool.false_eq_true, if_false, hgk, hs, if_neg hs, hp,
                    logEvent]
                  rw [hg, List.append_assoc]
                  rfl
                · intro e he
                  rcases List.mem_cons.mp he with rfl | he
                  · rfl
                  · rcases List.mem_singleton.mp he with rfl
                    rfl
              | some c =>
                refine ⟨[Event.storeGet service k], ?_, ?_⟩
                · simp only [hskip, Bool.false_eq_true, if_false, hgk, hs, if_neg hs, hp]
                  exact hg
                · intro e he
                  rcases List.mem_singleton.mp he with rfl
                  rfl
    obtain ⟨l1, hl1, hp1⟩ := hhead
    obtain ⟨l2, hl2, hp2⟩ := ih
        (match a.keychainKey with
          | none => ((none : Option TwitterCreds), st)
          | some k =>
            if skip then (none, st)
            else
              let gr := getFromKeychain env service k st
              match gr.1 with
              | none => (none, gr.2)
              | some s =>
                if s = "" then (none, gr.2)
                else
                  match env.parseTwitterJson s with
                  | none => (none, logEvent gr.2 (.invalidCreds a.name))
                  | some c => (some c, gr.2)).2
    refine ⟨l1 ++ l2, ?_, ?_⟩
    · rw [loadTwitterAccounts]
      simp only
      rw [hl2, hl1, List.append_assoc]
    · intro e he
      rcases List.mem_append.mp he with he | he
      · exact hp1 e he
      · exact hp2 e he

theorem loadConfigResolve_events (env : Env) (cfg : Config) (skip : Bool)
    (st : RunState) :
    ∃ l, (loadConfigResolve env cfg skip st).2.events = st.events ++ l ∧
      ∀ e ∈ l, eventPlatform e = none := by
  unfold loadConfigResolve
  have hm : ∃ l1,
      (match cfg.mastodon with
        | none => ((none : Option (Bool × List LoadedAccount)), st)
        | some pc =>
          let ar := resolvePlatformAccounts env (serviceName cfg) "Mastodon" skip
            pc.accounts st
          (some (pc.enabled, ar.1), ar.2)).2.events = st.events ++ l1 ∧
      ∀ e ∈ l1, eventPlatform e = none := by
    cases hmc : cfg.mastodon with
    | none => exact ⟨[], by simp, by simp⟩
    | some pc =>
      simpa using resolvePlatformAccounts_events env (serviceName cfg) "Mastodon"
        skip pc.accounts st
  obtain ⟨l1, hl1, hp1⟩ := hm
  set st1 := (match cfg.mastodon with
    | none => ((none : Option (Bool × List LoadedAccount)), st)
    | some pc =>
      let ar := resolvePlatformAccounts env (serviceName cfg) "Mastodon" skip
        pc.accounts st
      (some (pc.enabled, ar.1), ar.2)).2 with hst1
  have hb : ∃ l2,
      (match cfg.bluesky with
        | none => ((none : Option (Bool × List LoadedAccount)), st1)
        | some pc =>
          let ar := resolvePlatformAccounts env (serviceName cfg) "Bluesky" skip
            pc.accounts st1
          (some (pc.enabled, ar.1), ar.2)).2.events = st1.events ++ l2 ∧
      ∀ e ∈ l2, eventPlatform e = none := by
    cases hbc : cfg.bluesky with
    | none => exact ⟨[], by simp, by simp⟩
    | some pc =>
      simpa using resolvePlatformAccounts_events env (serviceName cfg) "Bluesky"
        skip pc.accounts st1
  obtain ⟨l2, hl2, hp2⟩ := hb
  set st2 := (match cfg.bluesky with
    | none => ((none : Option (Bool × List LoadedAccount)), st1)
    | some pc =>
      let ar := resolvePlatformAccounts env (serviceName cfg) "Bluesky" skip
        pc.accounts st1
      (some (pc.enabled, ar.1), ar.2)).2 with hst2
  have ht : ∃ l3,
      (match cfg.twitter with
        | none => ((none : Option (Bool × List LoadedTwitterAccount)), st2)
        | some pc =>
          let ar := loadTwitterAccounts env (serviceName cfg) skip pc.accounts st2
          (some (pc.enabled, ar.1), ar.2)).2.events = st2.events ++ l3 ∧
      ∀ e ∈ l3, eventPlatform e = none := by
    cases htc : cfg.twitter with
    | none => exact ⟨[], by simp, by simp⟩
    | some pc =>
      simpa using loadTwitterAccounts_events env (serviceName cfg) skip
        pc.accounts st2
  obtain ⟨l3, hl3, hp3⟩ := ht
  refine ⟨l1 ++ (l2 ++ l3), ?_, ?_⟩
  · simp only
    rw [hl3, hl2, hl1, List.append_assoc, List.append_assoc]
  · intro e he
    rcases List.mem_append.mp he with he | he
    · exact hp1 e he
    · rcases List.mem_append.mp he with he | he
      · exact hp2 e he
      · exact hp3 e he

theorem loadConfigResolve_mastodon_none (env : Env) (cfg : Config) (skip : Bool)
    (st : RunState) (h : cfg.mastodon = none) :
    (loadConfigResolve env cfg skip st).1.mastodon = none := by
  simp [loadConfigResolve, h]

theorem loadConfigResolve_mastodon_some (env : Env) (cfg : Config) (skip : Bool)
    (st : RunState) (pc : PlatformConfig) (h : cfg.mastodon = some pc) :
    ∃ accs, (loadConfigResolve env cfg skip st).1.mastodon =
      some (pc.enabled, accs) := by
  simp [loadConfigResolve, h]

theorem loadConfigResolve_bluesky_none (env : Env) (cfg : Config) (skip : Bool)
    (st : RunState) (h : cfg.bluesky = none) :
    (loadConfigResolve env cfg skip st).1.bluesky = none := by
  simp [loadConfigResolve, h]

theorem loadConfigResolve_bluesky_some (env : Env) (cfg : Config) (skip : Bool)
    (st : RunState) (pc : PlatformConfig) (h : cfg.bluesky = some pc) :
    ∃ accs, (loadConfigResolve env cfg skip st).1.bluesky =
      some (pc.enabled, accs) := by
  simp [loadConfigResolve, h]

theorem loadConfigResolve_twitter_none (env : Env) (cfg : Config) (skip : Bool)
    (st : RunState) (h : cfg.twitter = none) :
    (loadConfigResolve env cfg skip st).1.twitter = none := by
  simp [loadConfigResolve, h]

theorem loadConfigResolve_twitter_some (env : Env) (cfg : Config) (skip : Bool)
    (st : RunState) (pc : PlatformConfig) (h : cfg.twitter = some pc) :
    ∃ accs, (loadConfigResolve env cfg skip st).1.twitter =
      some (pc.enabled, accs) := by
  simp [loadConfigResolve, h]

theorem load_no_post (env : Env) (cfg : Config) (sp : Bool) :
    ∀ e ∈ (loadConfigResolve env cfg sp initialState).2.events,
      ∀ L : String, postActivity L e = false := by
  intro e he L
  obtain ⟨l, hl, hp⟩ := loadConfigResolve_events env cfg sp initialState
  rw [hl] at he
  simp only [initialState, List.nil_append] at he
  unfold postActivity
  rw [hp e he]
  rfl

theorem pipeline_no_post (env : Env) (cfg : Config) (p : Platform) (sp : Bool)
    (text : List Char) (hdis : disabledOrAbsent cfg p = true) :
    ∀ e ∈ (postToTwitter env text (loadConfigResolve env cfg sp initialState).1
        (postToBluesky env text (loadConfigResolve env cfg sp initialState).1
          (postToMastodon env text (loadConfigResolve env cfg sp initialState).1
            (loadConfigResolve env cfg sp initialState).2))).events,
      postActivity (platformLabel p) e = false := by
  intro e he
  obtain ⟨l0, h0, hp0⟩ := loadConfigResolve_events env cfg sp initialState
  cases p with
  | mastodon =>
    simp only [disabledOrAbsent, platformSection] at hdis
    have hdisj : (loadConfigResolve env cfg sp initialState).1.mastodon = none ∨
        ∃ accs, (loadConfigResolve env cfg sp initialState).1.mastodon =
          some (false, accs) := by
      cases hm : cfg.mastodon with
      | none =>
        exact Or.inl (loadConfigResolve_mastodon_none env cfg sp initialState hm)
      | some pc =>
        rw [hm] at hdis
        simp at hdis
        obtain ⟨accs, haccs⟩ :=
          loadConfigResolve_mastodon_some env cfg sp initialState pc hm
        exact Or.inr ⟨accs, by rw [haccs, hdis]⟩
    rw [postToMastodon_disabled env text _ _ hdisj] at he
    obtain ⟨lB, hB, hpB⟩ := postToBluesky_events env text
      (loadConfigResolve env cfg sp initialState).1
      (loadConfigResolve env cfg sp initialState).2
    obtain ⟨lT, hT, hpT⟩ := postToTwitter_events env text
      (loadConfigResolve env cfg sp initialState).1
      (postToBluesky env text (loadConfigResolve env cfg sp initialState).1
        (loadConfigResolve env cfg sp initialState).2)
    rw [hT, hB, h0] at he
    simp only [initialState, List.nil_append, List.mem_append] at he
    rcases he with (he | he) | he
    · unfold postActivity
      rw [hp0 e he]
      rfl
    · unfold postActivity
      rw [hpB e he]
      rfl
    · unfold postActivity
      rw [hpT e he]
      rfl
  | bluesky =>
    simp only [disabledOrAbsent, platformSection] at hdis
    have hdisj : (loadConfigResolve env cfg sp initialState).1.bluesky = none ∨
        ∃ accs, (loadConfigResolve env cfg sp initialState).1.bluesky =
          some (false, accs) := by
      cases hm : cfg.bluesky with
      | none =>
        exact Or.inl (loadConfigResolve_bluesky_none env cfg sp initialState hm)
      | some pc =>
        rw [hm] at hdis
        simp at hdis
        obtain ⟨accs, haccs⟩ :=
          loadConfigResolve_bluesky_some env cfg sp initialState pc hm
        exact Or.inr ⟨accs, by rw [haccs, hdis]⟩
    rw [postToBluesky_disabled env text _ _ hdisj] at he
    obtain ⟨lM, hM, hpM⟩ := postToMastodon_events env text
      (loadConfigResolve env cfg sp initialState).1
      (loadConfigResolve env cfg sp initialState).2
    obtain ⟨lT, hT, hpT⟩ := postToTwitter_events env text
      (loadConfigResolve env cfg sp initialState).1
      (postToMastodon env text (loadConfigResolve env cfg sp initialState).1
        (loadConfigResolve env cfg sp initialState).2)
    rw [hT, hM, h0] at he
    simp only [initialState, List.nil_append, List.mem_append] at he
    rcases he with (he | he) | he
    · unfold postActivity
      rw [hp0 e he]
      rfl
    · unfold postActivity
      rw [hpM e he]
      rfl
    · unfold postActivity
      rw [hpT e he]
      rfl
  | twitter =>
    simp only [disabledOrAbsent, platformSection] at hdis
    have hdisj : (loadConfigResolve env cfg sp initialState).1.twitter = none ∨
        ∃ accs, (loadConfigResolve env cfg sp initialState).1.twitter =
          some (false, accs) := by
      cases hm : cfg.twitter with
      | none =>
        exact Or.inl (loadConfigResolve_twitter_none env cfg sp initialState hm)
      | some pc =>
        rw [hm] at hdis
        simp at hdis
        obtain ⟨accs, haccs⟩ :=
          loadConfigResolve_twitter_some env cfg sp initialState pc hm
        exact Or.inr ⟨accs, by rw [haccs, hdis]⟩
    rw [postToTwitter_disabled env text _ _ hdisj] at he
    obtain ⟨lM, hM, hpM⟩ := postToMastodon_events env text
      (loadConfigResolve env cfg sp initialState).1
      (loadConfigResolve env cfg sp initialState).2
    obtain ⟨lB, hB, hpB⟩ := postToBluesky_events env text
      (loadConfigResolve env cfg sp initialState).1
      (postToMastodon env text (loadConfigResolve env cfg sp initialState).1
        (loadConfigResolve env cfg sp initialState).2)
    rw [hB, hM, h0] at he
    simp only [initialState, List.nil_append, List.mem_append] at he
    rcases he with (he | he) | he
    · unfold postActivity
      rw [hp0 e he]
      rfl
    · unfold postActivity
      rw [hpM e he]
      rfl
    · unfold postActivity
      rw [hpB e he]
      rfl

/-- C2: refuted as stated — the claim's "zero credential resolutions" fails
for a platform that is present but disabled, because load_config resolves the
accounts of every present platform without consulting its `enabled` flag.
With the only section a disabled Mastodon platform holding one store-backed
account, the full run's event log is exactly one secure-store read for that
disabled account's key: store activity happened for a disabled platform. -/
theorem disabled_platform_still_resolved_cex :
    (∃ pc, cfgDisabledMastodon.mastodon = some pc ∧ pc.enabled = false) ∧
    (mainRun (senvParsed cfgDisabledMastodon) envStocked
        { text := some "hi", setup := false }).2.events =
      [.storeGet "crosspost" "mastodon_primary"] :=
  ⟨⟨_, rfl, rfl⟩, by decide⟩

/-- C2 (amended): for every platform that is absent from the configuration
or disabled there, a full run issues zero post invocations — no adapter
call, no per-account outcome line, no missing-credential warning carries
that platform's name.  A platform absent from the configuration also gets
zero credential resolutions (its section is skipped by load_config and it
has no accounts); a present-but-disabled platform, however, still has its
accounts' credentials resolved at load time, as the counterexample shows, so
the claim's "zero credential resolutions" holds only for absent platforms. -/
theorem disabled_or_absent_platform_not_posted (senv : SysEnv) (env : Env)
    (args : Args) (cfg : Config) (p : Platform)
    (hparse : senv.parsed = some cfg)
    (hdis : disabledOrAbsent cfg p = true) :
    ∀ e ∈ (mainRun senv env args).2.events,
      postActivity (platformLabel p) e = false := by
  obtain ⟨ka, cwd, xdg, co, parsed⟩ := senv
  obtain ⟨text, setup⟩ := args
  simp only at hparse
  subst hparse
  intro e he
  cases ka with
  | false => simp [mainRun, initialState] at he
  | true =>
    by_cases hfound : (cwd || xdg) = true
    · cases setup with
      | true =>
        simp [mainRun, hfound] at he
        exact load_no_post env cfg true e he _
      | false =>
        cases text with
        | none =>
          simp [mainRun, hfound] at he
          exact load_no_post env cfg false e he _
        | some t =>
          simp only [mainRun, hfound] at he
          simp at he
          exact pipeline_no_post env cfg p false t.toList hdis e he
    · have hf : (cwd || xdg) = false := by
        cases h : (cwd || xdg)
        · rfl
        · exact absurd h hfound
      cases co <;> simp [mainRun, hf, initialState] at he

/-- Witness for C2 (amended) at the disabled-Mastodon configuration. -/
theorem disabled_platform_witness :
    (senvParsed cfgDisabledMastodon).parsed = some cfgDisabledMastodon ∧
    disabledOrAbsent cfgDisabledMastodon Platform.mastodon = true ∧
    ∀ e ∈ (mainRun (senvParsed cfgDisabledMastodon) envStocked
        { text := some "hi", setup := false }).2.events,
      postActivity (platformLabel Platform.mastodon) e = false :=
  ⟨rfl, by decide,
    disabled_or_absent_platform_not_posted (senvParsed cfgDisabledMastodon)
      envStocked { text := some "hi", setup := false } cfgDisabledMastodon
      Platform.mastodon rfl (by decide)⟩

/-! ## Claim C3 -/

/-- C3: refuted — when no configuration file exists anywhere and the example
config can be written, find_config_file writes the example and the process
exits 0, although the claim requires a non-zero exit for an absent
configuration file.  (A non-zero exit happens in that situation only when
writing the example fails.) -/
theorem absent_config_exits_zero_cex :
    senvNoConfig.cwdConfig = false ∧ senvNoConfig.xdgConfig = false ∧
    senvNoConfig.keyringAvailable = true ∧
    (mainRun senvNoConfig envAbsent { text := some "hi", setup := false }).1 = 0 :=
  ⟨rfl, rfl, rfl, rfl⟩

/-- C3 (amended): the exit code is 0 exactly when the keyring backend is
importable and either a configuration file was found, parsed, and a text
argument or setup mode was supplied (per-account skips and failures never
change the exit code — the code does not depend on the world at all), or no
configuration file was found and the example config was written successfully
(the first-run bootstrap path, which exits 0 even though nothing is posted).
So the exit is non-zero exactly for: unavailable keyring backend, a found
configuration that fails to parse, a failed example-config write, or a
missing text argument outside setup mode. -/
theorem exit_zero_iff (senv : SysEnv) (env : Env) (args : Args) :
    (mainRun senv env args).1 = 0 ↔
      (senv.keyringAvailable = true ∧
        (((senv.cwdConfig || senv.xdgConfig) = true ∧
            (∃ cfg, senv.parsed = some cfg) ∧
            (args.setup = true ∨ args.text ≠ none)) ∨
          ((senv.cwdConfig || senv.xdgConfig) = false ∧
            senv.createOk = true))) := by
  obtain ⟨ka, cwd, xdg, co, parsed⟩ := senv
  obtain ⟨text, setup⟩ := args
  cases ka <;> cases cwd <;> cases xdg <;> cases co <;> cases parsed <;>
    cases setup <;> cases text <;> simp [mainRun]

/-! ## Claim C8 -/

theorem postMastodonL_append (env : Legacy.LEnv) (text : List Char)
    (l1 l2 : List Legacy.LAccount) :
    Legacy.postMastodonL env text (l1 ++ l2) =
      Legacy.postMastodonL env text l1 ++ Legacy.postMastodonL env text l2 := by
  induction l1 with
  | nil => rfl
  | cons a rest ih => simp [Legacy.postMastodonL, ih]

theorem postBlueskyL_append (env : Legacy.LEnv) (text : List Char)
    (l1 l2 : List Legacy.LAccount) :
    Legacy.postBlueskyL env text (l1 ++ l2) =
      Legacy.postBlueskyL env text l1 ++ Legacy.postBlueskyL env text l2 := by
  induction l1 with
  | nil => rfl
  | cons a rest ih => simp [Legacy.postBlueskyL, ih]

theorem postMastodonL_no_prompt (env : Legacy.LEnv) (text : List Char)
    (accs : List Legacy.LAccount) :
    ∀ e ∈ Legacy.postMastodonL env text accs,
      ∀ pf acc, e ≠ Event.prompt pf acc := by
  induction accs with
  | nil =>
    intro e he
    simp [Legacy.postMastodonL] at he
  | cons a rest ih =>
    intro e he pf acc
    rw [Legacy.postMastodonL] at he
    rcases List.mem_append.mp he with he | he
    · by_cases ht : truthy (env.getenv a.credEnv)
      · by_cases hf : env.mastodonFails a.name
        · simp [ht, hf] at he
          rcases he with rfl | rfl <;> simp
        · simp [ht, hf] at he
          rcases he with rfl | rfl <;> simp
      · simp [ht] at he
        subst he
        simp
    · exact ih e he pf acc

theorem postBlueskyL_no_prompt (env : Legacy.LEnv) (text : List Char)
    (accs : List Legacy.LAccount) :
    ∀ e ∈ Legacy.postBlueskyL env text accs,
      ∀ pf acc, e ≠ Event.prompt pf acc := by
  induction accs with
  | nil =>
    intro e he
    simp [Legacy.postBlueskyL] at he
  | cons a rest ih =>
    intro e he pf acc
    rw [Legacy.postBlueskyL] at he
    rcases List.mem_append.mp he with he | he
    · by_cases ht : truthy (env.getenv a.credEnv)
      · by_cases hl : env.blueskyLoginFails a.name
        · simp [ht, hl] at he
          subst he
          simp
        · by_cases hs : env.blueskySendFails a.name
          · simp [ht, hl, hs] at he
            rcases he with rfl | rfl <;> simp
          · simp [ht, hl, hs] at he
            rcases he with rfl | rfl <;> simp
      · simp [ht] at he
        subst he
        simp
    · exact ih e he pf acc

/-- C8: in the legacy script an account whose environment variable is unset
(`os.getenv` returns `None`) or set to the empty string gets exactly the
missing-credential warning and is skipped, the accounts before and after it
being processed exactly as they would be anyway — and no legacy resolution
ever falls back to an interactive prompt: the traces of both posting loops
contain no prompt event whatsoever. -/
theorem envref_unset_warns_skips_never_prompts (env : Legacy.LEnv)
    (text : List Char) (pre post : List Legacy.LAccount) (a : Legacy.LAccount)
    (hunset : truthy (env.getenv a.credEnv) = false) :
    (Legacy.postMastodonL env text (pre ++ a :: post) =
      Legacy.postMastodonL env text pre ++
        Event.warnMissing "Mastodon" a.name ::
          Legacy.postMastodonL env text post) ∧
    (Legacy.postBlueskyL env text (pre ++ a :: post) =
      Legacy.postBlueskyL env text pre ++
        Event.warnMissing "Bluesky" a.name ::
          Legacy.postBlueskyL env text post) ∧
    (∀ accs : List Legacy.LAccount,
      ∀ e ∈ Legacy.postMastodonL env text accs ++ Legacy.postBlueskyL env text accs,
        ∀ pf acc, e ≠ Event.prompt pf acc) := by
  refine ⟨?_, ?_, ?_⟩
  · rw [postMastodonL_append, Legacy.postMastodonL]
    simp [hunset]
  · rw [postBlueskyL_append, Legacy.postBlueskyL]
    simp [hunset]
  · intro accs e he pf acc
    rcases List.mem_append.mp he with he | he
    · exact postMastodonL_no_prompt env text accs e he pf acc
    · exact postBlueskyL_no_prompt env text accs e he pf acc

/-- Witness for C8: two legacy accounts, the second one's variable unset. -/
theorem envref_unset_witness :
    truthy (lenvMixed.getenv laccB.credEnv) = false ∧
    ((Legacy.postMastodonL lenvMixed ("hi").toList ([laccA] ++ laccB :: []) =
      Legacy.postMastodonL lenvMixed ("hi").toList [laccA] ++
        Event.warnMissing "Mastodon" laccB.name ::
          Legacy.postMastodonL lenvMixed ("hi").toList []) ∧
    (Legacy.postBlueskyL lenvMixed ("hi").toList ([laccA] ++ laccB :: []) =
      Legacy.postBlueskyL lenvMixed ("hi").toList [laccA] ++
        Event.warnMissing "Bluesky" laccB.name ::
          Legacy.postBlueskyL lenvMixed ("hi").toList []) ∧
    (∀ accs : List Legacy.LAccount,
      ∀ e ∈ Legacy.postMastodonL lenvMixed ("hi").toList accs ++
          Legacy.postBlueskyL lenvMixed ("hi").toList accs,
        ∀ pf acc, e ≠ Event.prompt pf acc)) :=
  ⟨by decide,
    envref_unset_warns_skips_never_prompts lenvMixed ("hi").toList [laccA] []
      laccB (by decide)⟩

end Crosspost
